import Mathlib

/-!
# Verification of the TO-DO task-list application (src/App.tsx)

Shallow embedding of the single `App` component's state management:
the `Task` record, the command handlers `addTask`, `toggleTaskCompletion`,
`deleteTask`, the view filter `filteredTasks`, the derived counts, the
localStorage load/save bridging, and the filter-selector UI state machine.

Modelling conventions:
* Timestamps (`Date` values) are milliseconds since the epoch, as `Nat`.
  `Date.now().toString()` and the persisted string form of a timestamp are
  modelled by `natToString`, an injective decimal rendering with an exact
  inverse `natFromString?` — standing in for the JavaScript decimal /
  ISO-8601 renderings, which are likewise exactly invertible at millisecond
  precision.
* `String.prototype.trim()` is modelled by `trimStr` (drop leading and
  trailing whitespace characters).
* `JSON.parse` is platform code, not repository code: the load path takes
  the outcome of the try-block body (parse + date revival) as a parameter
  of type `Except String (List Task)`.
-/

namespace Todo

/-- Whitespace test used by the `trim` model (space, tab, CR, LF). -/
def isWS (c : Char) : Bool := c.isWhitespace

/-- Trim on the character list: drop the whitespace prefix, then the
whitespace suffix. -/
def trimChars (l : List Char) : List Char :=
  ((l.dropWhile isWS).reverse.dropWhile isWS).reverse

/-- Model of JavaScript `String.prototype.trim()`. -/
def trimStr (s : String) : String := ⟨trimChars s.data⟩

/-- The character for a single decimal digit `d < 10`. -/
def digitChar (d : Nat) : Char := Char.ofNat (48 + d)

/-- Fuel-based decimal rendering (most significant digit first); the fuel
only serves to make the recursion structural. -/
def toDigitsAux : Nat → Nat → List Char
  | 0, _ => []
  | fuel + 1, n =>
    if n < 10 then [digitChar n]
    else toDigitsAux fuel (n / 10) ++ [digitChar (n % 10)]

/-- Decimal digit string of a natural number, most significant first. -/
def toDigits (n : Nat) : List Char := toDigitsAux (n + 1) n

/-- Model of JavaScript `Number.prototype.toString()` on a (millisecond
timestamp) natural number, and of the persisted string form of a date. -/
def natToString (n : Nat) : String := ⟨toDigits n⟩

/-- Left-to-right decimal reader with accumulator. -/
def readDigits : List Char → Nat → Option Nat
  | [], acc => some acc
  | c :: cs, acc =>
    if c.isDigit then readDigits cs (acc * 10 + (c.toNat - 48)) else none

/-- Inverse of `natToString`: parse a decimal string back into a timestamp.
Models `new Date(str)` recovering the persisted timestamp; `none` models an
invalid date. -/
def natFromString? (s : String) : Option Nat :=
  match s.data with
  | [] => none
  | l => readDigits l 0

/-- The `Task` interface of src/App.tsx: id, text, completion flag and
creation timestamp. -/
structure Task where
  id : String
  text : String
  completed : Bool
  createdAt : Nat
deriving DecidableEq, Repr

/-- The `FilterType` union `'all' | 'active' | 'completed'`. -/
inductive FilterType where
  | all
  | active
  | completed
deriving DecidableEq, Repr

/-- `addTask` (src/App.tsx lines 46–59): reject input that is blank after
trimming, otherwise append a task with id `Date.now().toString()`, trimmed
text, `completed = false` and `createdAt` the current time.  The current
time is the explicit parameter `now`. -/
def addTask (now : Nat) (newTask : String) (tasks : List Task) : List Task :=
  if trimStr newTask = "" then tasks
  else
    tasks ++ [{ id := natToString now
                text := trimStr newTask
                completed := false
                createdAt := now }]

/-- `toggleTaskCompletion` (src/App.tsx lines 62–68): map over the list,
flipping `completed` on tasks whose id matches. -/
def toggleTaskCompletion (id : String) (tasks : List Task) : List Task :=
  tasks.map fun task =>
    if task.id = id then { task with completed := !task.completed } else task

/-- `deleteTask` (src/App.tsx lines 71–73): keep the tasks whose id does not
match. -/
def deleteTask (id : String) (tasks : List Task) : List Task :=
  tasks.filter fun task => task.id != id

/-- `filteredTasks` (src/App.tsx lines 76–80): the view filter. -/
def filteredTasks (filter : FilterType) (tasks : List Task) : List Task :=
  tasks.filter fun task =>
    match filter with
    | .active => !task.completed
    | .completed => task.completed
    | .all => true

/-- `totalTasks` (src/App.tsx line 83). -/
def totalTasks (tasks : List Task) : Nat := tasks.length

/-- `completedTasks` (src/App.tsx line 84). -/
def completedTasks (tasks : List Task) : Nat :=
  (tasks.filter fun task => task.completed).length

/-- `activeTasks` (src/App.tsx line 85): defined by subtraction in the
source. -/
def activeTasks (tasks : List Task) : Nat :=
  totalTasks tasks - completedTasks tasks

/-- A user action on the task store, for reachability statements.  An `add`
carries the clock reading `Date.now()` observed during that action. -/
inductive Op where
  | add (now : Nat) (input : String)
  | toggle (id : String)
  | delete (id : String)
deriving DecidableEq, Repr

/-- Apply one store action. -/
def applyOp (tasks : List Task) : Op → List Task
  | .add now input => addTask now input tasks
  | .toggle id => toggleTaskCompletion id tasks
  | .delete id => deleteTask id tasks

/-- Run a sequence of store actions from the initial empty store
(`useState<Task[]>([])`). -/
def runOps (ops : List Op) : List Task := ops.foldl applyOp []

/-- The clock readings of the `add` actions in a history, in order. -/
def addTimes : List Op → List Nat
  | [] => []
  | .add now _ :: rest => now :: addTimes rest
  | .toggle _ :: rest => addTimes rest
  | .delete _ :: rest => addTimes rest

/-- The shape of one persisted record: what `JSON.stringify` writes for a
`Task` — id, text and completed verbatim, `createdAt` rendered as a string
(src/App.tsx line 42). -/
structure SerTask where
  id : String
  text : String
  completed : Bool
  createdAt : String
deriving DecidableEq, Repr

/-- Serialize one task for persistence: `createdAt` becomes its string
form. -/
def serializeTask (t : Task) : SerTask :=
  { id := t.id, text := t.text, completed := t.completed
    createdAt := natToString t.createdAt }

/-- Serialize a whole task sequence (the value written under the key
`"tasks"`). -/
def serializeTasks (tasks : List Task) : List SerTask :=
  tasks.map serializeTask

/-- Deserialize one persisted record: `{...task, createdAt: new
Date(task.createdAt)}` (src/App.tsx lines 29–32); `none` models an invalid
date. -/
def deserializeTask (s : SerTask) : Option Task :=
  (natFromString? s.createdAt).map fun ms =>
    { id := s.id, text := s.text, completed := s.completed, createdAt := ms }

/-- Deserialize a persisted task sequence. -/
def deserializeTasks (l : List SerTask) : Option (List Task) :=
  l.mapM deserializeTask

/-- The mount-time load effect (src/App.tsx lines 23–38).  `savedTasks` is
`localStorage.getItem('tasks')`; `parseAndRevive` is the outcome of the
try-block body (`JSON.parse` plus the date-reviving map — platform code,
so it enters as a parameter; an exception is `.error`).  Returns the
resulting task list together with the `console.error` diagnostic log. -/
def loadTasks (savedTasks : Option String)
    (parseAndRevive : String → Except String (List Task)) :
    List Task × List String :=
  match savedTasks with
  | none => ([], [])
  | some s =>
    match parseAndRevive s with
    | .ok tasksWithDates => (tasksWithDates, [])
    | .error e => ([], ["Error parsing tasks from localStorage: " ++ e])

/-- The component state relevant to the filter selector: the task list,
the current filter and whether the filter menu is open. -/
structure AppState where
  tasks : List Task
  filter : FilterType
  isFilterMenuOpen : Bool
deriving DecidableEq, Repr

/-- The initial component state (`useState` initialisers, src/App.tsx
lines 17–20): empty task list, filter `all`, menu closed. -/
def initialState : AppState :=
  { tasks := [], filter := .all, isFilterMenuOpen := false }

/-- UI actions of the filter selector. -/
inductive UIAction where
  /-- Clicking the filter button: `setIsFilterMenuOpen(!isFilterMenuOpen)`
  (src/App.tsx line 103). -/
  | filterButton
  /-- Clicking a filter-menu option: `setFilter(mode);
  setIsFilterMenuOpen(false)` (src/App.tsx lines 114, 120, 126). -/
  | menuSelect (mode : FilterType)
  /-- Clicking the empty-state "Show all tasks" button: `setFilter('all')`
  (src/App.tsx line 164). -/
  | showAll
deriving DecidableEq, Repr

/-- One transition of the filter-selector state machine. -/
def uiStep (s : AppState) : UIAction → AppState
  | .filterButton => { s with isFilterMenuOpen := !s.isFilterMenuOpen }
  | .menuSelect mode => { s with filter := mode, isFilterMenuOpen := false }
  | .showAll => { s with filter := .all }

/-! ## Decimal rendering: round trip and injectivity -/

lemma toDigitsAux_fuel_eq :
    ∀ fuel n : Nat, n < fuel → toDigitsAux fuel n = toDigitsAux (n + 1) n := by
  intro fuel
  induction fuel using Nat.strong_induction_on with
  | _ fuel ih =>
    intro n h
    cases fuel with
    | zero => exact absurd h (Nat.not_lt_zero n)
    | succ f =>
      by_cases h10 : n < 10
      · simp [toDigitsAux, h10]
      · have h1 : n / 10 < n := Nat.div_lt_self (by omega) (by omega)
        have e1 : toDigitsAux f (n / 10) = toDigitsAux (n / 10 + 1) (n / 10) :=
          ih f (Nat.lt_succ_self f) (n / 10) (by omega)
        have e2 : toDigitsAux n (n / 10) = toDigitsAux (n / 10 + 1) (n / 10) :=
          ih n h (n / 10) h1
        simp [toDigitsAux, h10, e1, e2]

lemma toDigits_eq (n : Nat) :
    toDigits n =
      if n < 10 then [digitChar n] else toDigits (n / 10) ++ [digitChar (n % 10)] := by
  by_cases h10 : n < 10
  · simp [toDigits, toDigitsAux, h10]
  · have h1 : n / 10 < n := Nat.div_lt_self (by omega) (by omega)
    show (if n < 10 then [digitChar n]
      else toDigitsAux n (n / 10) ++ [digitChar (n % 10)]) = _
    rw [if_neg h10, if_neg h10, toDigitsAux_fuel_eq n (n / 10) h1]
    rfl

lemma digitChar_isDigit {d : Nat} (h : d < 10) : (digitChar d).isDigit = true := by
  interval_cases d <;> decide

lemma digitChar_toNat {d : Nat} (h : d < 10) : (digitChar d).toNat - 48 = d := by
  interval_cases d <;> decide

lemma readDigits_append (l₁ l₂ : List Char) (acc : Nat) :
    readDigits (l₁ ++ l₂) acc = (readDigits l₁ acc).bind (readDigits l₂) := by
  induction l₁ generalizing acc with
  | nil => simp [readDigits]
  | cons c cs ih =>
    by_cases hc : c.isDigit <;> simp [readDigits, hc, ih]

lemma readDigits_toDigits (n : Nat) :
    ∀ acc, readDigits (toDigits n) acc =
      some (acc * 10 ^ (toDigits n).length + n) := by
  induction n using Nat.strong_induction_on with
  | _ n ih =>
    intro acc
    rw [toDigits_eq n]
    by_cases h10 : n < 10
    · simp [h10, readDigits, digitChar_isDigit h10, digitChar_toNat h10]
    · have h1 : n / 10 < n := Nat.div_lt_self (by omega) (by omega)
      have hlt : n % 10 < 10 := Nat.mod_lt _ (by omega)
      simp [h10, readDigits_append, ih (n / 10) h1, readDigits,
        digitChar_isDigit hlt, digitChar_toNat hlt, Option.bind]
      rw [Nat.pow_succ]
      have := Nat.div_add_mod n 10
      ring_nf
      omega

lemma toDigits_ne_nil (n : Nat) : toDigits n ≠ [] := by
  rw [toDigits_eq n]
  by_cases h10 : n < 10 <;> simp [h10]

lemma natFromString?_natToString (n : Nat) : natFromString? (natToString n) = some n := by
  have h := readDigits_toDigits n 0
  simp only [Nat.zero_mul, Nat.zero_add] at h
  unfold natFromString? natToString
  cases hl : toDigits n with
  | nil => exact absurd hl (toDigits_ne_nil n)
  | cons c cs =>
    rw [hl] at h
    exact h

lemma natToString_injective : Function.Injective natToString := by
  intro a b h
  have ha := natFromString?_natToString a
  rw [h, natFromString?_natToString b] at ha
  exact (Option.some.inj ha).symm

/-! ## Trim: characterisation of blank strings -/

lemma trimChars_eq_rdropWhile (l : List Char) :
    trimChars l = List.rdropWhile isWS (l.dropWhile isWS) := rfl

lemma exists_not_isWS_of_trimChars_ne_nil {l : List Char} (h : trimChars l ≠ []) :
    ∃ c ∈ trimChars l, isWS c = false := by
  rw [trimChars_eq_rdropWhile] at h ⊢
  refine ⟨(List.rdropWhile isWS (l.dropWhile isWS)).getLast h, List.getLast_mem h, ?_⟩
  have hlast := List.rdropWhile_last_not isWS (l.dropWhile isWS) h
  simpa using hlast

lemma trimChars_eq_nil_iff (l : List Char) :
    trimChars l = [] ↔ ∀ c ∈ l, isWS c = true := by
  rw [trimChars_eq_rdropWhile, List.rdropWhile_eq_nil_iff]
  constructor
  · intro h c hc
    have hsplit : l.takeWhile isWS ++ l.dropWhile isWS = l :=
      List.takeWhile_append_dropWhile isWS l
    rw [← hsplit] at hc
    rcases List.mem_append.mp hc with h1 | h2
    · exact List.mem_takeWhile_imp h1
    · exact h c h2
  · intro h c hc
    exact h c ((List.dropWhile_sublist isWS).subset hc)

lemma trimStr_eq_empty_iff (s : String) :
    trimStr s = "" ↔ ∀ c ∈ s.data, isWS c = true := by
  rw [trimStr, show ("" : String) = ⟨[]⟩ from rfl, String.ext_iff]
  exact trimChars_eq_nil_iff s.data

lemma trimStr_not_blank {s : String} (h : trimStr s ≠ "") :
    ∃ c ∈ (trimStr s).data, isWS c = false := by
  have h' : trimChars s.data ≠ [] := fun he => h (congrArg String.mk he)
  exact exists_not_isWS_of_trimChars_ne_nil h'

/-! ## Basic behaviour of the command handlers -/

/-- Toggling never changes the ids (nor the length or order) of the list. -/
lemma toggle_map_id (id : String) (l : List Task) :
    (toggleTaskCompletion id l).map Task.id = l.map Task.id := by
  unfold toggleTaskCompletion
  rw [List.map_map]
  refine List.map_congr_left fun t _ => ?_
  by_cases h : t.id = id <;> simp [h]

/-- Toggling an absent id is the identity. -/
lemma toggle_not_mem (id : String) (l : List Task) (h : id ∉ l.map Task.id) :
    toggleTaskCompletion id l = l := by
  unfold toggleTaskCompletion
  conv_rhs => rw [← List.map_id l]
  refine List.map_congr_left fun t ht => ?_
  have : t.id ≠ id := fun he => h (he ▸ List.mem_map_of_mem Task.id ht)
  simp [this]

/-- Deleting an absent id is the identity. -/
lemma delete_not_mem (id : String) (l : List Task) (h : id ∉ l.map Task.id) :
    deleteTask id l = l := by
  refine List.filter_eq_self.mpr fun t ht => ?_
  have : t.id ≠ id := fun he => h (he ▸ List.mem_map_of_mem Task.id ht)
  simp [this]

/-- Deleting yields a sublist: order is preserved, no task is modified. -/
lemma delete_sublist (id : String) (l : List Task) :
    List.Sublist (deleteTask id l) l :=
  List.filter_sublist l

/-- The shape of `addTask` on non-blank input. -/
lemma addTask_eq_append {now : Nat} {input : String} (tasks : List Task)
    (h : trimStr input ≠ "") :
    addTask now input tasks
      = tasks ++ [{ id := natToString now, text := trimStr input
                    completed := false, createdAt := now }] := by
  simp [addTask, h]

/-- The shape of `addTask` on blank input. -/
lemma addTask_eq_self {now : Nat} {input : String} (tasks : List Task)
    (h : trimStr input = "") :
    addTask now input tasks = tasks := by
  simp [addTask, h]

/-- Main invariant behind id uniqueness: running any action sequence from a
store whose ids are distinct and avoid the (distinct) clock readings of the
pending adds yields a store with distinct ids. -/
lemma foldl_ids_nodup :
    ∀ (ops : List Op) (tasks : List Task),
      (tasks.map Task.id).Nodup →
      (addTimes ops).Nodup →
      (∀ n ∈ addTimes ops, natToString n ∉ tasks.map Task.id) →
      ((ops.foldl applyOp tasks).map Task.id).Nodup := by
  intro ops
  induction ops with
  | nil => intro tasks h _ _; exact h
  | cons op rest ih =>
    intro tasks h hnd hfresh
    rw [List.foldl_cons]
    cases op with
    | add now input =>
      simp only [addTimes] at hnd hfresh
      have hnd' : (addTimes rest).Nodup := hnd.of_cons
      have hnow : natToString now ∉ tasks.map Task.id :=
        hfresh now (List.mem_cons_self _ _)
      by_cases hb : trimStr input = ""
      · rw [show applyOp tasks (.add now input) = addTask now input tasks from rfl,
          addTask_eq_self tasks hb]
        exact ih tasks h hnd' fun n hn => hfresh n (List.mem_cons_of_mem _ hn)
      · rw [show applyOp tasks (.add now input) = addTask now input tasks from rfl,
          addTask_eq_append tasks hb]
        apply ih
        · rw [List.map_append]
          rw [List.nodup_append]
          refine ⟨h, by simp, ?_⟩
          intro a ha
          simp only [List.map_cons, List.map_nil, List.mem_singleton]
          intro he
          exact hnow (he ▸ ha)
        · exact hnd'
        · intro n hn hmem
          rw [List.map_append] at hmem
          rcases List.mem_append.mp hmem with hm | hm
          · exact hfresh n (List.mem_cons_of_mem _ hn) hm
          · simp only [List.map_cons, List.map_nil, List.mem_singleton] at hm
            have hne : n = now := natToString_injective hm
            exact (List.nodup_cons.mp hnd).1 (hne ▸ hn)
    | toggle tid =>
      simp only [addTimes] at hnd hfresh
      rw [show applyOp tasks (.toggle tid) = toggleTaskCompletion tid tasks from rfl]
      apply ih
      · rw [toggle_map_id]; exact h
      · exact hnd
      · intro n hn; rw [toggle_map_id]; exact hfresh n hn
    | delete did =>
      simp only [addTimes] at hnd hfresh
      rw [show applyOp tasks (.delete did) = deleteTask did tasks from rfl]
      have hsub : List.Sublist ((deleteTask did tasks).map Task.id) (tasks.map Task.id) :=
        (delete_sublist did tasks).map Task.id
      apply ih
      · exact h.sublist hsub
      · exact hnd
      · intro n hn hmem
        exact hfresh n hn (hsub.subset hmem)

/-- Every stored text carries a non-whitespace character, preserved by all
three handlers. -/
lemma foldl_texts_nonblank :
    ∀ (ops : List Op) (tasks : List Task),
      (∀ t ∈ tasks, ∃ c ∈ t.text.data, isWS c = false) →
      ∀ t ∈ ops.foldl applyOp tasks, ∃ c ∈ t.text.data, isWS c = false := by
  intro ops
  induction ops with
  | nil => intro tasks h; exact h
  | cons op rest ih =>
    intro tasks h
    rw [List.foldl_cons]
    cases op with
    | add now input =>
      by_cases hb : trimStr input = ""
      · rw [show applyOp tasks (.add now input) = addTask now input tasks from rfl,
          addTask_eq_self tasks hb]
        exact ih tasks h
      · rw [show applyOp tasks (.add now input) = addTask now input tasks from rfl,
          addTask_eq_append tasks hb]
        apply ih
        intro t ht
        rcases List.mem_append.mp ht with hm | hm
        · exact h t hm
        · rcases List.mem_singleton.mp hm with rfl
          exact trimStr_not_blank hb
    | toggle tid =>
      rw [show applyOp tasks (.toggle tid) = toggleTaskCompletion tid tasks from rfl]
      apply ih
      intro t ht
      rcases List.mem_map.mp ht with ⟨u, hu, he⟩
      have htext : t.text = u.text := by
        by_cases hc : u.id = tid <;> simp [hc] at he <;> rw [← he]
      rw [htext]
      exact h u hu
    | delete did =>
      rw [show applyOp tasks (.delete did) = deleteTask did tasks from rfl]
      apply ih
      intro t ht
      exact h t ((delete_sublist did tasks).subset ht)

/-! ## The claims -/

/-- Claim C1, counterexample: the id generator is `Date.now().toString()`,
so two adds observed at the same clock reading (here millisecond 5) produce
the same id — the reachable store `runOps [add 5 "a", add 5 "b"]` has ids
`["5", "5"]`, not pairwise distinct. -/
theorem claim1_counterexample :
    ¬ ((runOps [Op.add 5 "a", Op.add 5 "b"]).map Task.id).Nodup := by
  decide

/-- C1 (amended): at every reachable state of the task store, the ids are
pairwise distinct, provided the clock readings observed by the add
operations in the history are pairwise distinct (as they are whenever
successive adds fall in different milliseconds); each add then assigns an
id distinct from all ids already present. -/
theorem claim1_ids_nodup (ops : List Op) (h : (addTimes ops).Nodup) :
    ((runOps ops).map Task.id).Nodup :=
  foldl_ids_nodup ops [] (by simp) h (by simp)

/-- Witness for C1: a concrete four-action history with distinct add
times. -/
theorem claim1_witness :
    (addTimes [Op.add 1 "a", Op.toggle "1", Op.add 2 "b", Op.delete "1"]).Nodup ∧
      ((runOps [Op.add 1 "a", Op.toggle "1", Op.add 2 "b", Op.delete "1"]).map
        Task.id).Nodup :=
  ⟨by decide, claim1_ids_nodup _ (by decide)⟩

/-- Claim C2, counterexample: if the store already holds a task whose id is
the string `"5"` (as a task created at millisecond 5 would be), an add
observed at millisecond 5 appends a task whose id equals that existing id —
the ids of the result are `["5", "5"]`. -/
theorem claim2_counterexample :
    ¬ ((addTask 5 "  buy milk  "
        [{ id := "5", text := "x", completed := false, createdAt := 5 }]).map
          Task.id).Nodup := by
  decide

/-- C2 (amended): for every task list and every input whose trimmed form is
non-empty, add appends exactly one task — text the trimmed input, completed
false — leaving all previous tasks and their order unchanged; its id is
distinct from all existing ids provided the generated id (the string form
of the current clock reading) does not already occur in the list. -/
theorem claim2_addTask_appends (now : Nat) (input : String) (tasks : List Task)
    (hb : trimStr input ≠ "") (hfresh : natToString now ∉ tasks.map Task.id) :
    addTask now input tasks
      = tasks ++ [{ id := natToString now, text := trimStr input
                    completed := false, createdAt := now }] ∧
    ∀ t ∈ tasks, t.id ≠ natToString now := by
  refine ⟨addTask_eq_append tasks hb, ?_⟩
  intro t ht he
  exact hfresh (he ▸ List.mem_map_of_mem Task.id ht)

/-- Witness for C2: adding `"  buy milk  "` at millisecond 17 to the empty
store yields exactly the task with text `"buy milk"`. -/
theorem claim2_witness :
    trimStr "  buy milk  " ≠ "" ∧
    addTask 17 "  buy milk  " []
      = [{ id := "17", text := "buy milk", completed := false, createdAt := 17 }] := by
  have h := claim2_addTask_appends 17 "  buy milk  " [] (by decide) (by decide)
  refine ⟨by decide, ?_⟩
  rw [h.1]
  decide

/-- C3: toggle flips the completed flag of the task matching the id exactly
once, leaving every other task and the order and length of the sequence
unchanged; toggling an id not in the list is a no-op. -/
theorem claim3_toggle_spec (id : String) (tasks : List Task) :
    (id ∉ tasks.map Task.id → toggleTaskCompletion id tasks = tasks) ∧
    (∀ l₁ t l₂, tasks = l₁ ++ t :: l₂ → t.id = id →
      id ∉ l₁.map Task.id → id ∉ l₂.map Task.id →
      toggleTaskCompletion id tasks
        = l₁ ++ { t with completed := !t.completed } :: l₂) := by
  refine ⟨toggle_not_mem id tasks, ?_⟩
  intro l₁ t l₂ he hid h₁ h₂
  subst he
  unfold toggleTaskCompletion
  rw [List.map_append, List.map_cons, if_pos hid]
  have e₁ : l₁.map (fun task =>
      if task.id = id then { task with completed := !task.completed } else task) = l₁ :=
    toggle_not_mem id l₁ h₁
  have e₂ : l₂.map (fun task =>
      if task.id = id then { task with completed := !task.completed } else task) = l₂ :=
    toggle_not_mem id l₂ h₂
  rw [e₁, e₂]

/-- Witness for C3: toggling id `"2"` in a two-task store flips exactly the
second task; toggling the absent id `"9"` is a no-op. -/
theorem claim3_witness :
    toggleTaskCompletion "2"
        [{ id := "1", text := "a", completed := false, createdAt := 1 },
         { id := "2", text := "b", completed := false, createdAt := 2 }]
      = [{ id := "1", text := "a", completed := false, createdAt := 1 },
         { id := "2", text := "b", completed := true, createdAt := 2 }] ∧
    toggleTaskCompletion "9"
        [{ id := "1", text := "a", completed := false, createdAt := 1 }]
      = [{ id := "1", text := "a", completed := false, createdAt := 1 }] := by
  constructor
  · have h := (claim3_toggle_spec "2"
      [{ id := "1", text := "a", completed := false, createdAt := 1 },
       { id := "2", text := "b", completed := false, createdAt := 2 }]).2
      [{ id := "1", text := "a", completed := false, createdAt := 1 }]
      { id := "2", text := "b", completed := false, createdAt := 2 } []
      rfl rfl (by decide) (by decide)
    rw [h]
    rfl
  · exact (claim3_toggle_spec "9" _).1 (by decide)

/-- C4: delete removes exactly the one task whose id matches, preserving
the relative order of the remaining tasks; deleting an id not in the list
leaves the sequence unchanged. -/
theorem claim4_delete_spec (id : String) (tasks : List Task) :
    (id ∉ tasks.map Task.id → deleteTask id tasks = tasks) ∧
    (∀ l₁ t l₂, tasks = l₁ ++ t :: l₂ → t.id = id →
      id ∉ l₁.map Task.id → id ∉ l₂.map Task.id →
      deleteTask id tasks = l₁ ++ l₂) := by
  refine ⟨delete_not_mem id tasks, ?_⟩
  intro l₁ t l₂ he hid h₁ h₂
  subst he
  unfold deleteTask
  rw [List.filter_append]
  have e₁ : l₁.filter (fun task => task.id != id) = l₁ := delete_not_mem id l₁ h₁
  have e₂ : (t :: l₂).filter (fun task => task.id != id) = l₂ := by
    rw [List.filter_cons]
    simp only [hid, bne_self_eq_false, Bool.false_eq_true, if_false]
    exact delete_not_mem id l₂ h₂
  rw [e₁, e₂]

/-- Witness for C4: deleting id `"1"` from a two-task store leaves exactly
the other task; deleting the absent id `"9"` is a no-op. -/
theorem claim4_witness :
    deleteTask "1"
        [{ id := "1", text := "a", completed := false, createdAt := 1 },
         { id := "2", text := "b", completed := false, createdAt := 2 }]
      = [{ id := "2", text := "b", completed := false, createdAt := 2 }] ∧
    deleteTask "9"
        [{ id := "2", text := "b", completed := false, createdAt := 2 }]
      = [{ id := "2", text := "b", completed := false, createdAt := 2 }] := by
  constructor
  · exact (claim4_delete_spec "1" _).2 []
      { id := "1", text := "a", completed := false, createdAt := 1 }
      [{ id := "2", text := "b", completed := false, createdAt := 2 }]
      rfl rfl (by decide) (by decide)
  · exact (claim4_delete_spec "9" _).1 (by decide)

/-- C5: adding an input that is blank (empty or whitespace-only, i.e. empty
after trimming) is a no-op on the task sequence, and consequently no task
in any reachable store has empty or whitespace-only text. -/
theorem claim5_blank_add_noop :
    (∀ (now : Nat) (input : String) (tasks : List Task),
      trimStr input = "" → addTask now input tasks = tasks) ∧
    (∀ input : String, trimStr input = "" ↔ ∀ c ∈ input.data, isWS c = true) ∧
    (∀ ops : List Op, ∀ t ∈ runOps ops, ¬ ∀ c ∈ t.text.data, isWS c = true) := by
  refine ⟨fun now input tasks h => addTask_eq_self tasks h, trimStr_eq_empty_iff, ?_⟩
  intro ops t ht hall
  rcases foldl_texts_nonblank ops [] (by simp) t ht with ⟨c, hc, hcf⟩
  rw [hall c hc] at hcf
  exact absurd hcf (by decide)

/-- Witness for C5: adding `"   "` and adding `""` both leave a one-task
store unchanged. -/
theorem claim5_witness :
    addTask 3 "   " [{ id := "1", text := "a", completed := false, createdAt := 1 }]
      = [{ id := "1", text := "a", completed := false, createdAt := 1 }] ∧
    addTask 3 "" [{ id := "1", text := "a", completed := false, createdAt := 1 }]
      = [{ id := "1", text := "a", completed := false, createdAt := 1 }] :=
  ⟨claim5_blank_add_noop.1 3 "   " _ (by decide),
   claim5_blank_add_noop.1 3 "" _ (by decide)⟩

/-- C6: the view filter is a pure order-preserving projection: `all` is the
identity, `active` selects exactly the tasks with completed = false,
`completed` exactly those with completed = true; the two are disjoint,
together they recover the `all` set, and every visible task is an
unmodified element of the store. -/
theorem claim6_filter_spec (tasks : List Task) :
    filteredTasks .all tasks = tasks ∧
    (∀ t, t ∈ filteredTasks .active tasks ↔ t ∈ tasks ∧ t.completed = false) ∧
    (∀ t, t ∈ filteredTasks .completed tasks ↔ t ∈ tasks ∧ t.completed = true) ∧
    List.Disjoint (filteredTasks .active tasks) (filteredTasks .completed tasks) ∧
    (∀ t, t ∈ tasks ↔
      t ∈ filteredTasks .active tasks ∨ t ∈ filteredTasks .completed tasks) ∧
    (∀ m, List.Sublist (filteredTasks m tasks) tasks) := by
  refine ⟨?_, ?_, ?_, ?_, ?_, ?_⟩
  · simp [filteredTasks]
  · intro t; simp [filteredTasks, List.mem_filter]
  · intro t; simp [filteredTasks, List.mem_filter]
  · intro t h1 h2
    simp [filteredTasks, List.mem_filter] at h1 h2
    rw [h1.2] at h2
    exact absurd h2.2 (by decide)
  · intro t
    constructor
    · intro ht
      by_cases hc : t.completed
      · exact Or.inr (by simp [filteredTasks, List.mem_filter, ht, hc])
      · exact Or.inl (by simp [filteredTasks, List.mem_filter, ht, hc])
    · intro h
      rcases h with h | h <;>
        exact (List.mem_filter.mp h).1
  · intro m
    exact List.filter_sublist tasks

/-- Witness for C6: the end-to-end scenario of the spec — after add "A",
add "B", toggle the first id, the active view shows exactly "B" and the
completed view exactly "A". -/
theorem claim6_witness :
    (filteredTasks .all
        [{ id := "1", text := "A", completed := true, createdAt := 1 },
         { id := "2", text := "B", completed := false, createdAt := 2 }]
      = [{ id := "1", text := "A", completed := true, createdAt := 1 },
         { id := "2", text := "B", completed := false, createdAt := 2 }]) ∧
    ({ id := "2", text := "B", completed := false, createdAt := 2 } ∈
      filteredTasks .active
        [{ id := "1", text := "A", completed := true, createdAt := 1 },
         { id := "2", text := "B", completed := false, createdAt := 2 }]) := by
  have h := claim6_filter_spec
    [{ id := "1", text := "A", completed := true, createdAt := 1 },
     { id := "2", text := "B", completed := false, createdAt := 2 }]
  exact ⟨h.1, (h.2.1 _).mpr (by decide)⟩

/-- C7: serializing a task sequence for persistence (timestamps rendered to
strings) and deserializing it (strings parsed back into timestamps)
reproduces the same sequence: same ids, texts, completed flags and
timestamps. -/
theorem claim7_roundtrip (tasks : List Task) :
    deserializeTasks (serializeTasks tasks) = some tasks := by
  induction tasks with
  | nil => rfl
  | cons t ts ih =>
    simp only [serializeTasks, deserializeTasks, List.map_cons, List.mapM_cons]
    simp only [serializeTasks, deserializeTasks] at ih
    rw [ih]
    simp [deserializeTask, serializeTask, natFromString?_natToString]

/-- C8: the load path never propagates a fault: with no persisted value it
yields the empty list (total count 0) and logs nothing; with a present but
malformed value (parse failure) it also yields the empty list and logs the
failure to the diagnostic channel. -/
theorem claim8_load_fault_free (parse : String → Except String (List Task)) :
    loadTasks none parse = ([], []) ∧
    totalTasks (loadTasks none parse).1 = 0 ∧
    (∀ s e, parse s = .error e →
      (loadTasks (some s) parse).1 = [] ∧ (loadTasks (some s) parse).2 ≠ []) := by
  refine ⟨rfl, rfl, ?_⟩
  intro s e he
  simp [loadTasks, he]

/-- Witness for C8: a parse that always fails still loads an empty list. -/
theorem claim8_witness :
    (loadTasks (some "corrupt")
        (fun _ => (Except.error "SyntaxError" : Except String (List Task)))).1
      = [] ∧
    (loadTasks none
        (fun _ => (Except.error "SyntaxError" : Except String (List Task))))
      = ([], []) := by
  have h := claim8_load_fault_free fun _ => (Except.error "SyntaxError")
  exact ⟨(h.2.2 "corrupt" "SyntaxError" rfl).1, h.1⟩

/-- Claim C9, counterexample: the empty-state "Show all tasks" action
selects the FilterMode value `all` but does not close the filter menu —
from the state (menu open, filter completed) it yields (menu still open,
filter all). -/
theorem claim9_counterexample :
    ¬ ((uiStep { tasks := [], filter := .completed, isFilterMenuOpen := true }
        .showAll).isFilterMenuOpen = false) ∧
    (uiStep { tasks := [], filter := .completed, isFilterMenuOpen := true }
        .showAll).filter = .all := by
  decide

/-- C9 (amended): in the filter-selector state machine (initially closed
with filter `all`), the filter button toggles the menu (closed to open),
each of the three menu options closes the menu and sets the FilterMode in
the same step, the empty-state "Show all tasks" action sets the FilterMode
to `all` while leaving the menu state unchanged, and no transition mutates
the task list. -/
theorem claim9_ui_machine (s : AppState) :
    (s.isFilterMenuOpen = false →
      (uiStep s .filterButton).isFilterMenuOpen = true) ∧
    (∀ m, (uiStep s (.menuSelect m)).isFilterMenuOpen = false ∧
      (uiStep s (.menuSelect m)).filter = m) ∧
    ((uiStep s .showAll).filter = .all ∧
      (uiStep s .showAll).isFilterMenuOpen = s.isFilterMenuOpen) ∧
    (∀ a, (uiStep s a).tasks = s.tasks) ∧
    initialState.isFilterMenuOpen = false ∧ initialState.filter = .all := by
  refine ⟨?_, fun m => ⟨rfl, rfl⟩, ⟨rfl, rfl⟩, ?_, rfl, rfl⟩
  · intro h
    simp [uiStep, h]
  · intro a
    cases a <;> rfl

/-- Witness for C9: from the initial state, the filter button opens the
menu. -/
theorem claim9_witness :
    (uiStep { tasks := [], filter := .all, isFilterMenuOpen := false }
      .filterButton).isFilterMenuOpen = true :=
  (claim9_ui_machine { tasks := [], filter := .all, isFilterMenuOpen := false }).1 rfl

/-- C10: the derived counts satisfy activeCount + completedCount =
totalCount, where totalCount is the length of the full unfiltered list and
completedCount the number of tasks with completed = true; the counts are
computed from the task list alone, so no filter-selector transition (in
particular no change of FilterMode) changes them. -/
theorem claim10_counts (tasks : List Task) (s : AppState) :
    activeTasks tasks + completedTasks tasks = totalTasks tasks ∧
    totalTasks tasks = tasks.length ∧
    completedTasks tasks = (tasks.filter fun t => t.completed).length ∧
    (∀ a, totalTasks (uiStep s a).tasks = totalTasks s.tasks ∧
      completedTasks (uiStep s a).tasks = completedTasks s.tasks ∧
      activeTasks (uiStep s a).tasks = activeTasks s.tasks) := by
  refine ⟨?_, rfl, rfl, ?_⟩
  · have hle : completedTasks tasks ≤ totalTasks tasks :=
      List.length_filter_le _ tasks
    unfold activeTasks
    omega
  · intro a
    cases a <;> exact ⟨rfl, rfl, rfl⟩

end Todo
